import Mathlib

/-!
Verification of the Blockly C++ code-generator module
(`src/js/utils/blockly/cpp.js`) of this repository.

The module is a Blockly `Generator` instance. Its own code (embedded below
from the source) consists of `init`, `finish`, `scrubNakedValue`, `quote_`,
`scrub_` and `getAdjusted`, plus the reserved-word list and the
order-of-operations constants. The module also calls a handful of functions
of the external `node-blockly` library (`Blockly.isNumber`, `parseInt`,
`Blockly.Names`, `valueToCode`, `blockToCode`, `prefixLines`,
`allNestedComments`, `Blockly.utils.wrap`); those are modelled here from the
library the repository depends on, restricted to the behaviour the module
can observe (ASCII text, the value a socket resolves to, and so on).

JavaScript strings are modelled as `List Char` (wrapped in `String` at the
interfaces), JavaScript numbers reaching this module are integers and are
modelled as `Int` (`NaN` is a separate constructor of the result type where
it can arise), and the truthiness of `x || d` on strings and numbers is
modelled explicitly (`""` and `0` are falsy).
-/

namespace CppGen

/-! ## Characters and pieces of JavaScript string semantics -/

/-- Model of the JavaScript regex class `\s` restricted to the characters
that can occur in the generator's inputs (space, tab, newline, carriage
return, vertical tab, form feed, no-break space). -/
def jsSpace (c : Char) : Bool :=
  c = ' ' || c = '\t' || c = '\n' || c = '\r' || c = '\x0b' || c = '\x0c' || c = '\xa0'

/-- Decimal digit test, the regex class `\d`. -/
def isDig (c : Char) : Bool :=
  '0' ≤ c && c ≤ '9'

/-- Value of a run of decimal digits. -/
def digitsToNat (ds : List Char) : Nat :=
  ds.foldl (fun a c => 10 * a + (c.toNat - 48)) 0

/-- Global single-character replacement, `s.replace(/c/g, r)`. -/
def replaceAll (l : List Char) (c : Char) (r : List Char) : List Char :=
  l.foldr (fun x acc => if x = c then r ++ acc else x :: acc) []

/-- Whether the pattern `p` occurs in `s` starting at index `i`. -/
def occursAtB (p s : List Char) (i : Nat) : Bool :=
  p.isPrefixOf (s.drop i)

/-- Whether the pattern `p` occurs somewhere in `s`. -/
def containsSub (p : List Char) : List Char → Bool
  | [] => p.isPrefixOf []
  | c :: t => p.isPrefixOf (c :: t) || containsSub p t

/-- Whether the last character of `l` is a newline. -/
def endsNl : List Char → Bool
  | [] => false
  | c :: t => if t = [] then c = '\n' else endsNl t

/-! ## The numeral recognizer and `parseInt`

`Blockly.isNumber` of the external library tests the regex
`^\s*-?\d+(\.\d+)?\s*$`; `parseInt(at, 10)` skips leading whitespace, takes
an optional sign and the longest run of decimal digits, ignores the rest,
and yields `NaN` when there is no digit. -/

/-- Optional leading `-` of the numeral regex. -/
def signSplit (l : List Char) : Bool × List Char :=
  match l with
  | [] => (false, [])
  | c :: r => if c = '-' then (true, r) else (false, c :: r)

/-- Optional leading `-` or `+` as consumed by JavaScript `parseInt`. -/
def signSplitJs (l : List Char) : Bool × List Char :=
  match l with
  | [] => (false, [])
  | c :: r => if c = '-' then (true, r) else if c = '+' then (false, r) else (false, c :: r)

/-- The `\d+(\.\d+)?` part of the numeral regex, returning the mathematical
value of the matched numeral together with the unconsumed remainder. -/
def numTail? (l : List Char) : Option (ℚ × List Char) :=
  let ds := l.takeWhile isDig
  if ds.length = 0 then none
  else
    match l.drop ds.length with
    | [] => some ((digitsToNat ds : ℚ), [])
    | c :: r2 =>
      if c = '.' then
        let fs := r2.takeWhile isDig
        if fs.length = 0 then none
        else some ((digitsToNat ds : ℚ) + (digitsToNat fs : ℚ) / ((10 : ℚ) ^ fs.length),
          r2.drop fs.length)
      else some ((digitsToNat ds : ℚ), c :: r2)

/-- Full match of `^\s*-?\d+(\.\d+)?\s*$`, returning the mathematical value
of the literal numeral. -/
def numLit? (l : List Char) : Option ℚ :=
  let l1 := l.dropWhile jsSpace
  let p := signSplit l1
  match numTail? p.2 with
  | none => none
  | some qr => if qr.2.all jsSpace then some (if p.1 then -qr.1 else qr.1) else none

/-- Model of `Blockly.isNumber` of the external library. -/
def isNumber (s : String) : Bool :=
  (numLit? s.toList).isSome

/-- Mathematical value of a string accepted by `isNumber`. -/
def numeralValue (s : String) : Option ℚ :=
  numLit? s.toList

/-- Model of JavaScript `parseInt(s, 10)`; `none` is `NaN`. -/
def parseInt10 (l : List Char) : Option Int :=
  let l1 := l.dropWhile jsSpace
  let p := signSplitJs l1
  let ds := p.2.takeWhile isDig
  if ds.length = 0 then none
  else some (if p.1 then -(digitsToNat ds : Int) else (digitsToNat ds : Int))

/-- Match of `^\s*-?\d+\s*$`: a literal integer numeral (the numerals on
which truncation by `parseInt` is invisible). -/
def intLitCheck (l : List Char) : Bool :=
  let l1 := l.dropWhile jsSpace
  let p := signSplit l1
  let ds := p.2.takeWhile isDig
  ds.length ≠ 0 && (p.2.drop ds.length).all jsSpace

/-- String-level wrapper of `intLitCheck`. -/
def isIntNumber (s : String) : Bool :=
  intLitCheck s.toList

/-! ## Order-of-operation constants (`Blockly.Cpp.ORDER_*`) -/

def ORDER_ATOMIC : Nat := 0
def ORDER_UNARY_POSTFIX : Nat := 1
def ORDER_UNARY_PREFIX : Nat := 2
def ORDER_MULTIPLICATIVE : Nat := 3
def ORDER_ADDITIVE : Nat := 4
def ORDER_NONE : Nat := 99

/-! ## `Blockly.Cpp.getAdjusted`

The one external call is `Blockly.Cpp.valueToCode(block, atId, ...)`; its
result is taken as the parameter `vtc` (the empty string when the socket is
unconnected, which is what the library's `valueToCode` returns then). The
JavaScript defaulting `opt_order || ORDER_NONE` makes an absent order and
an order of `0` both behave as `ORDER_NONE`; `opt_delta || 0` is the
identity on integers. -/

/-- Result type of `getAdjusted`: the source returns either a JavaScript
number (possibly `NaN`) or a string. -/
inductive AdjResult
  | num (n : Int)
  | nan
  | str (s : String)
deriving DecidableEq, Repr

/-- Effective order after the JavaScript defaulting `opt_order || ORDER_NONE`. -/
def effOrder : Option Nat → Nat
  | none => ORDER_NONE
  | some o => if o = 0 then ORDER_NONE else o

/-- The defaulting `valueToCode(...) || defaultAtIndex` inside `getAdjusted`. -/
def resolveOperand (oneBased : Bool) (vtc : String) : String :=
  if vtc = "" then (if oneBased then "1" else "0") else vtc

/-- The dynamic-operand branch of `getAdjusted` (`// If the index is
dynamic, adjust it in code.`): emit a textual `+`/`-` expression, wrap in
unary negation when requested, and parenthesize when `order >= innerOrder`
(an unset `innerOrder` is `NaN` there, falsy in the test, modelled as 0). -/
def adjustText (atText : String) (delta : Int) (optNegate : Bool) (order : Nat) : String :=
  let p1 : String × Nat :=
    if delta > 0 then (atText ++ " + " ++ toString delta, ORDER_ADDITIVE)
    else if delta < 0 then (atText ++ " - " ++ toString (-delta), ORDER_ADDITIVE)
    else (atText, 0)
  let p2 : String × Nat :=
    if optNegate then
      (if delta ≠ 0 then "-(" ++ p1.1 ++ ")" else "-" ++ p1.1, ORDER_UNARY_PREFIX)
    else p1
  if p2.2 ≠ 0 ∧ p2.2 ≤ order then "(" ++ p2.1 ++ ")" else p2.1

/-- Embedding of `Blockly.Cpp.getAdjusted`. `oneBased` is
`block.workspace.options.oneBasedIndex`; `vtc` is the string returned by
`valueToCode` for the socket (the source requests it under different orders
in the three branches, but the operand text used afterwards is the one
value this call returned). -/
def getAdjusted (oneBased : Bool) (vtc : String) (optDelta : Int) (optNegate : Bool)
    (optOrder : Option Nat) : AdjResult :=
  let delta := if oneBased then optDelta - 1 else optDelta
  let order := effOrder optOrder
  let atText := resolveOperand oneBased vtc
  if isNumber atText then
    match parseInt10 atText.toList with
    | some n =>
        let v := n + delta
        AdjResult.num (if optNegate then -v else v)
    | none => AdjResult.nan
  else
    AdjResult.str (adjustText atText delta optNegate order)

/-! ## `Blockly.Cpp.quote_` -/

/-- Embedding of `Blockly.Cpp.quote_`: the four global replacements of the
source, in source order, then wrapping in single quotes. Note the source
replaces `\n` with the JavaScript string `'\\\n'`, which is a backslash
followed by a literal newline. -/
def quote_ (s : String) : String :=
  let l1 := replaceAll s.toList '\\' ['\\', '\\']
  let l2 := replaceAll l1 '\n' ['\\', '\n']
  let l3 := replaceAll l2 '$' ['\\', '$']
  let l4 := replaceAll l3 '\'' ['\\', '\'']
  String.mk ('\'' :: l4 ++ ['\''])

/-! ## `Blockly.Cpp.scrubNakedValue` -/

/-- Embedding of `Blockly.Cpp.scrubNakedValue`. -/
def scrubNakedValue (line : String) : String :=
  line ++ ";\n"

/-! ## `Blockly.Cpp.scrub_` and statement chains

`scrub_` receives the code of the current block, collects the block's own
comment (word-wrapped by the library's `Blockly.utils.wrap`, which is the
identity on lines that fit within the wrap limit) and the nested comments of
the blocks plugged into its value inputs (`allNestedComments` of the
library, abstracted here as the per-input string it returns), and then
appends `blockToCode` of the next statement block. A statement chain is
modelled as the list of blocks along the `nextConnection` links, each with
the code its block-type rule generated for it. -/

/-- Model of the library's `prefixLines(text, prefix)`:
`prefix + text.replace(/(?!\n$)\n/g, '\n' + prefix)` — each line of `text`
is prefixed, a trailing newline not opening a further line. -/
def prefixLinesCh (pre : List Char) : List Char → List Char
  | [] => []
  | c :: rest =>
    if c = '\n' then
      if rest = [] then ['\n'] else '\n' :: (pre ++ prefixLinesCh pre rest)
    else c :: prefixLinesCh pre rest

/-- String-level `prefixLines(text, pre)`. -/
def prefixLines (text pre : String) : String :=
  pre ++ String.mk (prefixLinesCh pre.toList text.toList)

/-- One entry of `block.inputList`: a value input with the
`allNestedComments` text of its connected child (`none` when no child is
connected), or an input of any other type (skipped by `scrub_`). -/
inductive BInput
  | value (childNested : Option String)
  | other
deriving DecidableEq, Repr

/-- The data of one block that `scrub_` observes: its comment text (`""`
when it has none), whether its output connection is plugged into another
block (`block.outputConnection && block.outputConnection.targetConnection`),
whether it is a procedure definition (`block.getProcedureDef`), its input
list, and the code its block-type generation rule produced. -/
structure BlockData where
  commentText : String
  hasInlineOutput : Bool
  isProcDef : Bool
  inputs : List BInput
  code : String
deriving DecidableEq, Repr

/-- The nested-comment collection loop of `scrub_` over `block.inputList`. -/
def inputComments : List BInput → String
  | [] => ""
  | BInput.value (some nested) :: rest =>
    (if nested ≠ "" then prefixLines nested "// " else "") ++ inputComments rest
  | _ :: rest => inputComments rest

/-- The own-comment part of `scrub_`, under the wrap function `wrapF`
(the library's `Blockly.utils.wrap` at width `COMMENT_WRAP - 3`). -/
def ownComment (wrapF : String → String) (b : BlockData) : String :=
  let comment := wrapF b.commentText
  if comment ≠ "" then
    if b.isProcDef then prefixLines (comment ++ "\n") "/// "
    else prefixLines (comment ++ "\n") "// "
  else ""

/-- `commentCode` as accumulated by `scrub_` (empty for inline blocks). -/
def commentCodeOf (wrapF : String → String) (b : BlockData) : String :=
  if b.hasInlineOutput then "" else ownComment wrapF b ++ inputComments b.inputs

/-- Embedding of `Blockly.Cpp.scrub_`: `commentCode + code + nextCode`. -/
def scrub_ (wrapF : String → String) (b : BlockData) (code nextCode : String) : String :=
  commentCodeOf wrapF b ++ code ++ nextCode

/-- `blockToCode` along a statement chain: each block's code is passed
through `scrub_`, whose `nextCode` is the generation of the rest of the
chain (`blockToCode(null)` of the library returns `""`). -/
def generateChain (wrapF : String → String) : List BlockData → String
  | [] => ""
  | b :: rest => scrub_ wrapF b b.code (generateChain wrapF rest)

/-! ## The Name Registry (`Blockly.Names` of the external library)

`cpp.js` creates one `Blockly.Names` database over its reserved-word list
and uses `getName`/`reset`. `safeName_` is modelled for ASCII identifiers
(space to underscore, other non-word characters to underscore, `my_` before
a leading digit); `getDistinctName`'s unbounded suffix search is run on a
fuel larger than the number of possible blockers, so the fuel never runs
out on the loop the library performs. -/

/-- The regex class `\w`. -/
def jsWordChar (c : Char) : Bool :=
  isDig c || ('a' ≤ c && c ≤ 'z') || ('A' ≤ c && c ≤ 'Z') || c = '_'

/-- Model of `Blockly.Names.prototype.safeName_` on ASCII names. -/
def safeNameOf (name : String) : String :=
  if name = "" then "unnamed"
  else
    let n2 := name.toList.map fun c =>
      if c = ' ' then '_' else if jsWordChar c then c else '_'
    let n3 := String.mk n2
    if (match n2 with | c :: _ => isDig c | [] => false) then "my_" ++ n3 else n3

/-- State of a `Blockly.Names` database: the reserved words, the map from
normalized requested names to emitted names (`db_`), and the set of emitted
names (`dbReverse_`). -/
structure Names where
  reserved : List String
  db : List (String × String)
  dbReverse : List String
deriving DecidableEq, Repr

/-- `new Blockly.Names(reservedWords)`. -/
def freshNames (reserved : List String) : Names :=
  ⟨reserved, [], []⟩

/-- `Blockly.Names.prototype.reset`: clears both maps, keeps the reserved words. -/
def Names.reset (n : Names) : Names :=
  { n with db := [], dbReverse := [] }

/-- The suffix tried at loop counter `i` (`''`, then `2`, `3`, ...). -/
def suffixStr (i : Nat) : String :=
  if i = 0 then "" else toString i

/-- Whether a candidate emitted name is blocked (already emitted or reserved). -/
def blockedIn (n : Names) (s : String) : Bool :=
  n.dbReverse.contains s || n.reserved.contains s

/-- The `while` loop of `getDistinctName`, on fuel. -/
def distinctLoop (n : Names) (base : String) : Nat → Nat → String
  | 0, i => base ++ suffixStr i
  | fuel + 1, i =>
    let cand := base ++ suffixStr i
    if blockedIn n cand then distinctLoop n base fuel (if i = 0 then 2 else i + 1)
    else cand

/-- Model of `Blockly.Names.prototype.getDistinctName` (the variable prefix
is empty, as `setVariablePrefix` is never called by `cpp.js`). -/
def Names.getDistinctName (n : Names) (name : String) : String × Names :=
  let safe := distinctLoop n (safeNameOf name) (n.reserved.length + n.dbReverse.length + 2) 0
  (safe, { n with dbReverse := safe :: n.dbReverse })

/-- Association-list lookup mirroring a JavaScript dictionary access. -/
def lookupKV (l : List (String × String)) (k : String) : Option String :=
  (l.find? fun p => p.1 = k).map Prod.snd

/-- Model of `Blockly.Names.prototype.getName`. -/
def Names.getName (n : Names) (name ty : String) : String × Names :=
  let normalized := name.toLower ++ "_" ++ ty
  match lookupKV n.db normalized with
  | some s => (s, n)
  | none =>
    let p := n.getDistinctName name
    (p.1, { p.2 with db := (normalized, p.1) :: p.2.db })

/-- `Blockly.Variables.NAME_TYPE`. -/
def NAME_TYPE : String := "VARIABLE"

/-- The `getName` fold of `init` over the workspace's variables, threading
the registry. -/
def getNamesFold : Names → List String → List String × Names
  | db, [] => ([], db)
  | db, v :: vs =>
    let p := Names.getName db v NAME_TYPE
    let r := getNamesFold p.2 vs
    (p.1 :: r.1, r.2)

/-! ## Reserved words (`Blockly.Cpp.addReservedWords`) -/

/-- The comma-separated reserved-word string of the source, concatenated
exactly as written there. -/
def reservedWordsStr : String :=
  "assert,break,case,catch,class,const,continue,default,do,else,enum," ++
  "extends,false,final,finally,for,if,in,is,new,null,rethrow,return,super," ++
  "switch,this,throw,true,try,var,void,while,with," ++
  "print,identityHashCode,identical,BidirectionalIterator,Comparable," ++
  "double,Function,int,Invocation,Iterable,Iterator,List,Map,Match,num," ++
  "Pattern,RegExp,Set,StackTrace,String,StringSink,Type,bool,DateTime," ++
  "Deprecated,Duration,Expando,Null,Object,RuneIterator,Runes,Stopwatch," ++
  "StringBuffer,Symbol,Uri,Comparator,AbstractClassInstantiationError," ++
  "ArgumentError,AssertionError,CastError,ConcurrentModificationError," ++
  "CyclicInitializationError,Error,Exception,FallThroughError," ++
  "FormatException,IntegerDivisionByZeroException,NoSuchMethodError," ++
  "NullThrownError,OutOfMemoryError,RangeError,StackOverflowError," ++
  "StateError,TypeError,UnimplementedError,UnsupportedError"

/-- `Blockly.Cpp.RESERVED_WORDS_` as the word list the `Names` database is
seeded with. -/
def RESERVED_WORDS_ : List String :=
  reservedWordsStr.splitOn ","

/-! ## Module state, `Blockly.Cpp.init` and `Blockly.Cpp.finish` -/

/-- The module-scoped mutable fields of `Blockly.Cpp` that `init` and
`finish` manipulate. `none` models a field that is absent (`delete`d or
never created); the Definition Table keeps dictionary insertion order. -/
structure CppState where
  definitions_ : Option (List (String × String))
  functionNames_ : Option (List (String × String))
  variableDB_ : Option Names
deriving DecidableEq, Repr

/-- The registry `init` proceeds with: created over the reserved words on
the first call, cleared by `reset` on subsequent calls. -/
def initDb (s : CppState) : Names :=
  match s.variableDB_ with
  | none => freshNames RESERVED_WORDS_
  | some db => db.reset

/-- The registry-resolved names of the workspace's variables, as computed
by `init` from the state `s`. -/
def resolvedVarNames (ws : List String) (s : CppState) : List String :=
  (getNamesFold (initDb s) ws).1

/-- Embedding of `Blockly.Cpp.init`: `ws` is the list of names of
`workspace.getAllVariables()`. -/
def init (ws : List String) (s : CppState) : CppState :=
  let db := initDb s
  if ws.length ≠ 0 then
    let r := getNamesFold db ws
    { definitions_ := some [("variables", "var " ++ String.intercalate ", " r.1 ++ ";")],
      functionNames_ := some [],
      variableDB_ := some r.2 }
  else
    { definitions_ := some [], functionNames_ := some [], variableDB_ := some db }

/-- The import-entry test of `finish`: `def.match(/^import\s/)`. -/
def isImportDef (s : String) : Bool :=
  match s.toList with
  | 'i' :: 'm' :: 'p' :: 'o' :: 'r' :: 't' :: c :: _ => jsSpace c
  | _ => false

/-- One step of `allDefs.replace(/\n\n+/g, '\n\n')`: `n` counts the
newlines of the run currently being copied (capped at two, further
newlines of the run are dropped). -/
def squashAux : Nat → List Char → List Char
  | _, [] => []
  | n, c :: rest =>
    if c = '\n' then
      if 2 ≤ n then squashAux n rest
      else '\n' :: squashAux (n + 1) rest
    else c :: squashAux 0 rest

/-- Model of `allDefs.replace(/\n\n+/g, '\n\n')`: every maximal run of two
or more newlines becomes exactly two. -/
def squash (l : List Char) : List Char :=
  squashAux 0 l

/-- The trailing-newline strip of `replace(/\n*$/, '\n\n\n')` (the first
and only match of `\n*$` is the maximal trailing newline run). -/
def stripTrailNl (l : List Char) : List Char :=
  (l.reverse.dropWhile fun c => c = '\n').reverse

/-- The two `replace` calls of `finish` applied to `allDefs`. -/
def postprocessList (l : List Char) : List Char :=
  stripTrailNl (squash l) ++ ['\n', '\n', '\n']

/-- The `allDefs` string of `finish`: imports (entries matching the import
test, in table order) joined by one newline, two newlines, then the other
entries joined by blank lines. -/
def allDefsStr (entries : List String) : String :=
  let parts := entries.partition isImportDef
  String.intercalate "\n" parts.1 ++ "\n\n" ++ String.intercalate "\n\n" parts.2

/-- Embedding of `Blockly.Cpp.finish`: the returned string and the module
state after the teardown (`delete` of the tables, `reset` of the registry). -/
def finish (s : CppState) (code : String) : String × CppState :=
  let entries := (s.definitions_.getD []).map Prod.snd
  let allDefs := allDefsStr entries
  (String.mk (postprocessList allDefs.toList ++ code.toList),
   { definitions_ := none, functionNames_ := none,
     variableDB_ := s.variableDB_.map Names.reset })

/-- The string `finish` returns for a given Definition Table and body. -/
def finishOutput (defs : List (String × String)) (code : String) : String :=
  let s : CppState :=
    { definitions_ := some defs, functionNames_ := some [],
      variableDB_ := some (freshNames RESERVED_WORDS_) }
  (finish s code).1

/-- The portion of `finish`'s output that precedes the body: the processed
definitions region. -/
def defsRegion (defs : List (String × String)) : String :=
  String.mk (postprocessList (allDefsStr (defs.map Prod.snd)).toList)

/-- Run-length check: `runsLeSt m k l` scans `l` and fails (`none`) when a
run of consecutive newlines exceeds the allowance (`k` at the current
position, refilled to `m` after any other character); on success it returns
the remaining allowance at the end of `l`. -/
def runsLeSt (m : Nat) : Nat → List Char → Option Nat
  | k, [] => some k
  | k, c :: rest =>
    if c = '\n' then
      if 0 < k then runsLeSt m (k - 1) rest else none
    else runsLeSt m m rest

/-- A string has no three consecutive blank lines exactly when it has no
run of four consecutive newlines: every newline run has length at most
three. -/
def noThreeBlankLines (s : String) : Bool :=
  (runsLeSt 3 3 s.toList).isSome

/-! ## Supporting lemmas -/

/-- Appending strings appends their character lists. -/
theorem mk_append (l : List Char) (b : String) :
    String.mk l ++ b = String.mk (l ++ b.data) := by
  cases b
  rfl

/-- A whitespace character is not a dot. -/
theorem jsSpace_ne_dot {c : Char} (hc : jsSpace c = true) : ¬ c = '.' := by
  intro he
  subst he
  simp [jsSpace] at hc

/-- On a digit run followed only by whitespace, the numeral-body matcher
succeeds and consumes exactly the digits. -/
theorem numTail_int (r : List Char) (h1 : ¬ (r.takeWhile isDig).length = 0)
    (h2 : (r.drop (r.takeWhile isDig).length).all jsSpace = true) :
    numTail? r = some ((digitsToNat (r.takeWhile isDig) : ℚ),
      r.drop (r.takeWhile isDig).length) := by
  unfold numTail?
  rw [if_neg h1]
  cases hrest : r.drop (r.takeWhile isDig).length with
  | nil => simp
  | cons c r2 =>
    have hc : jsSpace c = true := by
      rw [hrest] at h2
      simp [List.all_cons] at h2
      exact h2.1
    simp [jsSpace_ne_dot hc]

/-- Reduction of `signSplit` on a leading minus. -/
theorem signSplit_neg (r : List Char) : signSplit ('-' :: r) = (true, r) := by
  simp [signSplit]

/-- Reduction of `signSplit` on any other head. -/
theorem signSplit_other {c : Char} (hm : ¬ c = '-') (r : List Char) :
    signSplit (c :: r) = (false, c :: r) := by
  simp [signSplit, hm]

/-- Reduction of `signSplitJs` on a leading minus. -/
theorem signSplitJs_neg (r : List Char) : signSplitJs ('-' :: r) = (true, r) := by
  simp [signSplitJs]

/-- Reduction of `signSplitJs` on a head that is neither sign. -/
theorem signSplitJs_other {c : Char} (hm : ¬ c = '-') (hp : ¬ c = '+') (r : List Char) :
    signSplitJs (c :: r) = (false, c :: r) := by
  simp [signSplitJs, hm, hp]

/-- A successful numeral-body match starts with a digit run. -/
theorem numTail_digits {r : List Char} {qr : ℚ × List Char} (h : numTail? r = some qr) :
    ¬ (r.takeWhile isDig).length = 0 := by
  intro h0
  unfold numTail? at h
  rw [if_pos h0] at h
  exact Option.noConfusion h

/-- A literal integer numeral is parsed identically by `parseInt` and by
the full numeral regex: both yield its integer value. -/
theorem intLit_parse (l : List Char) (h : intLitCheck l = true) :
    ∃ v : Int, parseInt10 l = some v ∧ numLit? l = some (v : ℚ) := by
  unfold intLitCheck at h
  simp only [Bool.and_eq_true, decide_eq_true_eq] at h
  obtain ⟨h1, h2⟩ := h
  unfold parseInt10 numLit?
  cases hl1 : l.dropWhile jsSpace with
  | nil =>
    rw [hl1] at h1
    simp [signSplit] at h1
  | cons c r =>
    rw [hl1] at h1 h2
    by_cases hm : c = '-'
    · subst hm
      rw [signSplit_neg] at h1 h2
      simp only [signSplit_neg, signSplitJs_neg] at h1 h2 ⊢
      rw [numTail_int r h1 h2]
      refine ⟨-(digitsToNat (r.takeWhile isDig) : Int), ?_, ?_⟩
      · rw [if_neg h1]
        simp
      · simp [h2]
    · have hp : ¬ c = '+' := by
        intro he
        subst he
        rw [signSplit_other (by decide)] at h1
        simp [List.takeWhile, isDig] at h1
      rw [signSplit_other hm] at h1 h2
      simp only [signSplit_other hm, signSplitJs_other hm hp] at h1 h2 ⊢
      rw [numTail_int (c :: r) h1 h2]
      refine ⟨(digitsToNat ((c :: r).takeWhile isDig) : Int), ?_, ?_⟩
      · rw [if_neg h1]
        simp
      · simp [h2]

/-- Any string accepted by `isNumber` is parsed to some integer by
`parseInt` (so the `NaN` branch of `getAdjusted` is unreachable). -/
theorem isNumber_parseInt (l : List Char) (h : (numLit? l).isSome = true) :
    ∃ v : Int, parseInt10 l = some v := by
  unfold numLit? at h
  unfold parseInt10
  cases hl1 : l.dropWhile jsSpace with
  | nil =>
    rw [hl1] at h
    simp only [signSplit] at h
    cases hnt : numTail? [] with
    | none => rw [hnt] at h; simp at h
    | some qr =>
      exfalso
      unfold numTail? at hnt
      simp [List.takeWhile] at hnt
  | cons c r =>
    rw [hl1] at h
    by_cases hm : c = '-'
    · subst hm
      simp only [signSplit_neg, signSplitJs_neg] at h ⊢
      cases hnt : numTail? r with
      | none => rw [hnt] at h; simp at h
      | some qr =>
        rw [if_neg (numTail_digits hnt)]
        exact ⟨_, rfl⟩
    · by_cases hp : c = '+'
      · exfalso
        subst hp
        simp only [signSplit_other (by decide : ¬ ('+' : Char) = '-')] at h
        cases hnt : numTail? ('+' :: r) with
        | none => rw [hnt] at h; simp at h
        | some qr =>
          unfold numTail? at hnt
          simp [List.takeWhile, isDig] at hnt
      · simp only [signSplit_other hm, signSplitJs_other hm hp] at h ⊢
        cases hnt : numTail? (c :: r) with
        | none => rw [hnt] at h; simp at h
        | some qr =>
          rw [if_neg (numTail_digits hnt)]
          exact ⟨_, rfl⟩

/-- The run checker distributes over append: the allowance left by the
first part becomes the starting allowance of the second. -/
theorem runsLeSt_append (m : Nat) (a b : List Char) : ∀ k,
    runsLeSt m k (a ++ b) = (runsLeSt m k a).bind fun k2 => runsLeSt m k2 b := by
  induction a with
  | nil => intro k; simp [runsLeSt]
  | cons c t ih =>
    intro k
    by_cases hc : c = '\n'
    · subst hc
      by_cases hk : 0 < k
      · simp [runsLeSt, hk, ih]
      · simp [runsLeSt, hk]
    · simp [runsLeSt, hc, ih]

/-- After the newline-run collapse has already emitted `n` newlines of the
current run, the rest of its output never exceeds the remaining allowance
of two newlines per run. -/
theorem squashAux_runs (l : List Char) : ∀ n,
    (runsLeSt 2 (2 - n) (squashAux n l)).isSome = true := by
  induction l with
  | nil => intro n; simp [squashAux, runsLeSt]
  | cons c t ih =>
    intro n
    by_cases hc : c = '\n'
    · subst hc
      by_cases hn : 2 ≤ n
      · have h0 : 2 - n = 0 := by omega
        have hrec := ih n
        rw [h0] at hrec ⊢
        simpa [squashAux, hn] using hrec
      · have hpos : 0 < 2 - n := by omega
        have h1 : 2 - n - 1 = 2 - (n + 1) := by omega
        simp only [squashAux, if_pos rfl, if_neg hn, runsLeSt, if_pos hpos, h1]
        exact ih (n + 1)
    · simp only [squashAux, if_neg hc, runsLeSt]
      exact ih 0

/-- Every newline run of the collapsed definitions text has length at most
two. -/
theorem squash_runs (l : List Char) : (runsLeSt 2 2 (squash l)).isSome = true :=
  squashAux_runs l 0

/-- A text whose runs fit allowance scheme `(2, j)` also fits the looser
scheme `(3, k)` whenever `j ≤ k`. -/
theorem runsLeSt_mono (a : List Char) : ∀ j k, j ≤ k →
    (runsLeSt 2 j a).isSome = true → (runsLeSt 3 k a).isSome = true := by
  induction a with
  | nil => intro j k _ _; simp [runsLeSt]
  | cons c t ih =>
    intro j k hjk h
    by_cases hc : c = '\n'
    · subst hc
      by_cases hj : 0 < j
      · have hk : 0 < k := lt_of_lt_of_le hj hjk
        simp only [runsLeSt, if_pos rfl, if_pos hj] at h
        simp only [runsLeSt, if_pos rfl, if_pos hk]
        exact ih (j - 1) (k - 1) (by omega) h
      · simp [runsLeSt, hj] at h
    · simp only [runsLeSt, if_neg hc] at h ⊢
      exact ih 2 3 (by omega) h

/-- Scanning a nonempty text that does not end in a newline leaves the full
allowance of three at its end. -/
theorem runsLeSt_end (a : List Char) : ∀ k k', endsNl a = false → ¬ a = [] →
    runsLeSt 3 k a = some k' → k' = 3 := by
  induction a with
  | nil => intro k k' _ h; exact absurd rfl h
  | cons c t ih =>
    intro k k' hend _ hrun
    cases t with
    | nil =>
      have hc : ¬ c = '\n' := by simpa [endsNl] using hend
      simp [runsLeSt, hc] at hrun
      omega
    | cons d t2 =>
      have hend2 : endsNl (d :: t2) = false := by simpa [endsNl] using hend
      by_cases hc : c = '\n'
      · subst hc
        by_cases hk : 0 < k
        · simp only [runsLeSt, if_pos rfl, if_pos hk] at hrun
          exact ih (k - 1) k' hend2 (by simp) hrun
        · simp [runsLeSt, hk] at hrun
      · simp only [runsLeSt, if_neg hc] at hrun
        exact ih 3 k' hend2 (by simp) hrun

/-- The head of a `dropWhile p` result never satisfies `p`. -/
theorem dropWhile_head_false (p : Char → Bool) (x : List Char) :
    ∀ c, (x.dropWhile p).head? = some c → p c = false := by
  induction x with
  | nil => intro c hc; simp [List.dropWhile] at hc
  | cons a t ih =>
    intro c hc
    rw [List.dropWhile_cons] at hc
    by_cases hpa : p a
    · rw [if_pos hpa] at hc
      exact ih c hc
    · rw [if_neg hpa] at hc
      simp at hc
      rw [← hc]
      simpa using hpa

/-- `endsNl` of a list ending in an explicit last character. -/
theorem endsNl_concat (y : List Char) (c : Char) :
    endsNl (y ++ [c]) = decide (c = '\n') := by
  induction y with
  | nil => simp [endsNl]
  | cons a y' ih => simpa [endsNl] using ih

/-- Stripping the trailing newline run leaves a text that does not end in a
newline. -/
theorem endsNl_strip (l : List Char) : endsNl (stripTrailNl l) = false := by
  unfold stripTrailNl
  cases h : l.reverse.dropWhile (fun c => c = '\n') with
  | nil => rfl
  | cons c t =>
    have hc := dropWhile_head_false (fun c => decide (c = '\n')) l.reverse c
      (by rw [h]; rfl)
    rw [List.reverse_cons, endsNl_concat]
    simpa using hc

/-- A text splits into its trailing-newline strip and the stripped run. -/
theorem strip_decomp (l : List Char) :
    stripTrailNl l ++ (l.reverse.takeWhile fun c => c = '\n').reverse = l := by
  unfold stripTrailNl
  rw [← List.reverse_append, List.takeWhile_append_dropWhile, List.reverse_reverse]

/-- The processed definitions region never contains a run of four
consecutive newlines — that is, never three consecutive blank lines. -/
theorem postprocess_runs (l : List Char) :
    (runsLeSt 3 3 (postprocessList l)).isSome = true := by
  have h3 : (runsLeSt 3 3 (squash l)).isSome = true :=
    runsLeSt_mono (squash l) 2 3 (by omega) (squash_runs l)
  rw [← strip_decomp (squash l), runsLeSt_append] at h3
  obtain ⟨k, hk⟩ : ∃ k, runsLeSt 3 3 (stripTrailNl (squash l)) = some k := by
    cases hres : runsLeSt 3 3 (stripTrailNl (squash l)) with
    | none => rw [hres] at h3; simp at h3
    | some k => exact ⟨k, rfl⟩
  have hk3 : k = 3 := by
    cases he : stripTrailNl (squash l) with
    | nil =>
      rw [he] at hk
      simp [runsLeSt] at hk
      omega
    | cons c t =>
      exact runsLeSt_end _ 3 k (endsNl_strip _) (by rw [he]; simp) hk
  unfold postprocessList
  rw [runsLeSt_append, hk, hk3]
  rfl

/-- `getName` never changes the reserved-word seed of the registry. -/
theorem getName_reserved (db : Names) (v ty : String) :
    ((Names.getName db v ty).2).reserved = db.reserved := by
  unfold Names.getName Names.getDistinctName
  cases h : lookupKV db.db (v.toLower ++ "_" ++ ty) with
  | none => simp [h]
  | some s => simp [h]

/-- Resolving a list of variable names never changes the reserved-word
seed of the registry. -/
theorem getNamesFold_reserved (ws : List String) : ∀ db : Names,
    ((getNamesFold db ws).2).reserved = db.reserved := by
  induction ws with
  | nil => intro db; rfl
  | cons v vs ih =>
    intro db
    unfold getNamesFold
    rw [ih]
    exact getName_reserved db v NAME_TYPE

/-- The registry `init` proceeds with always has empty maps: it is fully
determined by its reserved-word seed. -/
theorem initDb_eta (s : CppState) :
    initDb s = Names.mk (initDb s).reserved [] [] := by
  cases h : s.variableDB_ with
  | none => simp [initDb, h, freshNames]
  | some db => simp [initDb, h, Names.reset]

/-- `init` reads the prior state only through the registry it proceeds
with. -/
theorem init_congr (ws : List String) (a b : CppState) (h : initDb a = initDb b) :
    init ws a = init ws b := by
  unfold init
  rw [h]

/-- A state whose registry field holds `some db` hands `db.reset` to `init`. -/
theorem initDb_of_some (st : CppState) (db : Names) (h : st.variableDB_ = some db) :
    initDb st = db.reset := by
  simp [initDb, h]

/-- `getAdjusted` observes the socket only through the resolved operand. -/
theorem getAdjusted_congr (oneBased : Bool) (v w : String) (d : Int) (neg : Bool)
    (ord : Option Nat) (h : resolveOperand oneBased v = resolveOperand oneBased w) :
    getAdjusted oneBased v d neg ord = getAdjusted oneBased w d neg ord := by
  unfold getAdjusted
  rw [h]

/-- The unfolded form of `finishOutput`. -/
theorem finishOutput_eq (defs : List (String × String)) (code : String) :
    finishOutput defs code =
      String.mk (postprocessList (allDefsStr (defs.map Prod.snd)).toList ++ code.data) := rfl

/-- `getAdjusted` on a non-literal resolved operand takes the dynamic
branch. -/
theorem getAdjusted_dyn (oneBased : Bool) (vtc : String) (d : Int) (neg : Bool)
    (ord : Option Nat) (h : isNumber (resolveOperand oneBased vtc) = false) :
    getAdjusted oneBased vtc d neg ord =
      AdjResult.str (adjustText (resolveOperand oneBased vtc)
        (if oneBased then d - 1 else d) neg (effOrder ord)) := by
  simp [getAdjusted, h]

/-- `getAdjusted` on a literal resolved operand constant-folds with the
`parseInt` value. -/
theorem getAdjusted_lit (oneBased : Bool) (vtc : String) (d : Int) (neg : Bool)
    (ord : Option Nat) (n : Int) (h : isNumber (resolveOperand oneBased vtc) = true)
    (hp : parseInt10 (resolveOperand oneBased vtc).toList = some n) :
    getAdjusted oneBased vtc d neg ord =
      AdjResult.num (if neg then -(n + (if oneBased then d - 1 else d))
        else n + (if oneBased then d - 1 else d)) := by
  have hp2 : parseInt10 (resolveOperand oneBased vtc).data = some n := hp
  simp [getAdjusted, h, hp2]

/-! ## The claims -/

/-- C4: evaluation of `quote_` at the failing input `it's<newline>$x`. The
dollar sign is escaped as backslash-dollar and the apostrophe as
backslash-apostrophe, with the backslash pass running first, exactly as
claimed — but the newline is emitted as a backslash followed by a literal
newline character (a line continuation), not as the two-character sequence
backslash-`n`: the source's replacement string `'\\\n'` (backslash,
newline) is a slip for the library's usual `'\\n'` (backslash, `n`). -/
theorem quote_newline_eval :
    quote_ (String.mk ['i', 't', '\'', 's', '\n', '$', 'x']) =
      String.mk ['\'', 'i', 't', '\\', '\'', 's', '\\', '\n', '\\', '$', 'x', '\''] ∧
    containsSub ['\\', 'n']
      (quote_ (String.mk ['i', 't', '\'', 's', '\n', '$', 'x'])).toList = false ∧
    containsSub ['\\', '\n']
      (quote_ (String.mk ['i', 't', '\'', 's', '\n', '$', 'x'])).toList = true ∧
    containsSub ['\\', '$']
      (quote_ (String.mk ['i', 't', '\'', 's', '\n', '$', 'x'])).toList = true ∧
    containsSub ['\\', '\'']
      (quote_ (String.mk ['i', 't', '\'', 's', '\n', '$', 'x'])).toList = true := by
  decide

/-- C7: an unconnected value socket — for which the library's `valueToCode`
returns the empty string — resolves inside `getAdjusted` to the
caller-supplied default placeholder, `"1"` under one-based indexing and
`"0"` otherwise, and `getAdjusted` then behaves exactly as if that
placeholder had been the connected operand's text; the embedding is a total
function, so no failure or undefined result arises. -/
theorem unconnected_socket_default (oneBased : Bool) (d : Int) (neg : Bool)
    (ord : Option Nat) :
    resolveOperand oneBased "" = (if oneBased then "1" else "0") ∧
    (resolveOperand oneBased "" = "0" ∨ resolveOperand oneBased "" = "1") ∧
    getAdjusted oneBased "" d neg ord =
      getAdjusted oneBased (if oneBased then "1" else "0") d neg ord := by
  refine ⟨?_, ?_, ?_⟩
  · cases oneBased <;> rfl
  · cases oneBased
    · exact Or.inl rfl
    · exact Or.inr rfl
  · apply getAdjusted_congr
    cases oneBased <;> rfl

/-- C9: `finish`'s output is a core that does not end in a newline, then
exactly three newline characters, then the body appended verbatim; with an
empty Definition Table it is exactly three newlines followed by the body,
never the body alone. -/
theorem finish_three_newlines (defs : List (String × String)) (code : String) :
    (∃ core : String, finishOutput defs code = core ++ "\n\n\n" ++ code ∧
      endsNl core.toList = false) ∧
    finishOutput [] code = "\n\n\n" ++ code ∧
    ¬ finishOutput [] code = code := by
  have key : ∀ c : String, finishOutput [] c = "\n\n\n" ++ c := by
    intro c
    cases c
    rfl
  refine ⟨⟨String.mk (stripTrailNl (squash (allDefsStr (defs.map Prod.snd)).toList)),
    ?_, ?_⟩, key code, ?_⟩
  · rw [finishOutput_eq, mk_append, mk_append]
    congr 1
  · exact endsNl_strip _
  · intro h
    rw [key code] at h
    have hlen := congrArg String.length h
    rw [String.length_append] at hlen
    have h3 : ("\n\n\n" : String).length = 3 := rfl
    omega

/-- C6: `init` resets the Definition Table and the helper-name table,
creates the Name Registry on the first call and clears it on subsequent
calls (proceeding from a fresh registry and from a cleared one are
indistinguishable), and adds exactly one definition entry — `"variables"`,
listing the registry-resolved names — precisely when the workspace declares
at least one variable. -/
theorem init_state_spec (ws : List String) (s : CppState) :
    (init ws s).functionNames_ = some [] ∧
    (init ws s).definitions_ = some (if ws.length ≠ 0 then
        [("variables", "var " ++ String.intercalate ", " (resolvedVarNames ws s) ++ ";")]
      else []) ∧
    (init ws s).variableDB_.isSome = true ∧
    init ws { s with variableDB_ := none } =
      init ws { s with variableDB_ := some (freshNames RESERVED_WORDS_) } ∧
    (∀ db : Names, init ws { s with variableDB_ := some db } =
      init ws { s with variableDB_ := some db.reset }) := by
  refine ⟨?_, ?_, ?_, ?_, ?_⟩
  · by_cases h : ws.length ≠ 0 <;> simp [init, h]
  · by_cases h : ws.length ≠ 0 <;> simp [init, h, resolvedVarNames]
  · by_cases h : ws.length ≠ 0 <;> simp [init, h]
  · rfl
  · intro db
    rfl

/-- C8: the teardown of one generation pass (`finish`) resets the Name
Registry, so a second pass started by `init` from the post-`finish` state
behaves exactly as a pass started from the pre-first-pass state: no
name-collision decision of the first pass influences the second, and in
particular the emitted `"variables"` definition entries of the two passes
are identical. -/
theorem registry_reset_between_passes (ws ws2 : List String) (body : String)
    (s : CppState) :
    init ws2 ((finish (init ws s) body).2) = init ws2 s ∧
    (init ws ((finish (init ws s) body).2)).definitions_ = (init ws s).definitions_ := by
  have hmain : ∀ w2 : List String, init w2 ((finish (init ws s) body).2) = init w2 s := by
    intro w2
    apply init_congr
    by_cases h : ws.length ≠ 0
    · have h1 : ((finish (init ws s) body).2).variableDB_ =
          some (Names.reset (getNamesFold (initDb s) ws).2) := by
        simp [finish, init, h]
      have hres := getNamesFold_reserved ws (initDb s)
      have h2 : (Names.reset (getNamesFold (initDb s) ws).2).reset =
          Names.mk (initDb s).reserved [] [] := by
        simp [Names.reset, hres]
      rw [initDb_of_some _ _ h1, h2, ← initDb_eta s]
    · have h1 : ((finish (init ws s) body).2).variableDB_ =
          some (Names.reset (initDb s)) := by
        simp [finish, init, h]
      have h2 : (Names.reset (initDb s)).reset = Names.mk (initDb s).reserved [] [] := by
        simp [Names.reset]
      rw [initDb_of_some _ _ h1, h2, ← initDb_eta s]
  exact ⟨hmain ws2, by rw [hmain ws]⟩

/-- C3 (amended): generation over a three-block statement chain emits, for
each block in chain order, that block's comment text first and its code
second: A's comments, A's code, B's comments, B's code, C's comments, C's
code — statement order follows the connection chain with no reordering,
and the comment a block carries precedes (not follows) that block's code. -/
theorem scrub_chain_order (wrapF : String → String) (A B C : BlockData) :
    generateChain wrapF [A, B, C] =
      commentCodeOf wrapF A ++ A.code ++
        (commentCodeOf wrapF B ++ B.code ++
          (commentCodeOf wrapF C ++ C.code ++ "")) := rfl

/-- C3 (counterexample): for the concrete chain A (comment `K`, code `A;`),
B (code `B;`), C (code `C;`), the generated text is `// K` then newline
then `A;B;C;`; it does not contain A's code, then A's comment (neither the
rendered `// K` line nor the raw text `K`), then B's code in that order —
the comment precedes A's code instead. -/
theorem scrub_chain_cx :
    generateChain id [⟨"K", false, false, [], "A;"⟩, ⟨"", false, false, [], "B;"⟩,
        ⟨"", false, false, [], "C;"⟩] = "// K\nA;B;C;" ∧
    (¬ ∃ i : Fin 11, ∃ j : Fin 11, ∃ k : Fin 11,
      i.val + 2 ≤ j.val ∧ j.val + 5 ≤ k.val ∧
      occursAtB ['A', ';'] ("// K\nA;B;C;").toList i.val = true ∧
      occursAtB ['/', '/', ' ', 'K', '\n'] ("// K\nA;B;C;").toList j.val = true ∧
      occursAtB ['B', ';'] ("// K\nA;B;C;").toList k.val = true) ∧
    (¬ ∃ i : Fin 11, ∃ j : Fin 11, ∃ k : Fin 11,
      i.val + 2 ≤ j.val ∧ j.val + 1 ≤ k.val ∧
      occursAtB ['A', ';'] ("// K\nA;B;C;").toList i.val = true ∧
      occursAtB ['K'] ("// K\nA;B;C;").toList j.val = true ∧
      occursAtB ['B', ';'] ("// K\nA;B;C;").toList k.val = true) := by
  decide

/-- C1 (amended): for a non-literal operand (so a nonempty `valueToCode`
result that is not a numeral) and nonzero adjusted delta, with no negation
requested, `getAdjusted` returns the text `<operand> + <delta>` when the
delta is positive and `<operand> - <|delta|>` when it is negative, wrapped
in parentheses if and only if the caller-required effective order is
numerically greater than or equal to the additive order (the source tests
`order >= innerOrder`, not `order <= innerOrder`). -/
theorem getAdjusted_nonliteral_text (oneBased : Bool) (vtc : String) (d delta : Int)
    (ord : Option Nat)
    (hδ : delta = if oneBased then d - 1 else d)
    (hne : ¬ vtc = "") (hnum : isNumber vtc = false) (hd : ¬ delta = 0) :
    getAdjusted oneBased vtc d false ord =
      AdjResult.str
        (let e := if 0 < delta then vtc ++ " + " ++ toString delta
          else vtc ++ " - " ++ toString (-delta)
         if ORDER_ADDITIVE ≤ effOrder ord then "(" ++ e ++ ")" else e) := by
  have hres : resolveOperand oneBased vtc = vtc := by
    simp [resolveOperand, hne]
  have hnum2 : isNumber (resolveOperand oneBased vtc) = false := by rw [hres]; exact hnum
  rw [getAdjusted_dyn oneBased vtc d false ord hnum2, hres, ← hδ]
  have h4 : ¬ (ORDER_ADDITIVE = 0) := by decide
  rcases (Ne.lt_or_lt hd) with h1 | h1
  · have h2 : ¬ delta > 0 := by omega
    have h3 : ¬ 0 < delta := h2
    simp only [adjustText, if_neg h2, if_pos h1, if_neg h3]
    by_cases ho : ORDER_ADDITIVE ≤ effOrder ord <;> simp [ho, h4]
  · simp only [adjustText, if_pos h1]
    by_cases ho : ORDER_ADDITIVE ≤ effOrder ord <;> simp [ho, h4, h1]

/-- C1 (witness): the amended statement at the concrete call
`getAdjusted(block, at, 1, false, ORDER_NONE)` with operand `x`. -/
theorem getAdjusted_nonliteral_text_witness :
    (¬ ("x" : String) = "") ∧ isNumber "x" = false ∧ (¬ (1 : Int) = 0) ∧
    getAdjusted false "x" 1 false (some 99) =
      AdjResult.str
        (let e := if 0 < (1 : Int) then "x" ++ " + " ++ toString (1 : Int)
          else "x" ++ " - " ++ toString (-(1 : Int))
         if ORDER_ADDITIVE ≤ effOrder (some 99) then "(" ++ e ++ ")" else e) :=
  ⟨by decide, by decide, by decide,
    getAdjusted_nonliteral_text false "x" 1 1 (some 99) (by decide) (by decide)
      (by decide) (by decide)⟩

/-- C1 (counterexample): with operand `x`, delta 1, no negation and the
caller-required order `ORDER_NONE` (99), the code wraps — it returns
`(x + 1)` — although 99 is not numerically less than or equal to the
additive order 4, so the claim's "parenthesized iff the caller-required
order is ≤ the additive order" predicts the unwrapped text `x + 1`. -/
theorem getAdjusted_paren_direction_cx :
    getAdjusted false "x" 1 false (some 99) = AdjResult.str "(x + 1)" ∧
    ¬ effOrder (some 99) ≤ ORDER_ADDITIVE ∧
    ¬ AdjResult.str "(x + 1)" = AdjResult.str "x + 1" := by
  decide

/-- C2 (amended): for a resolved operand that is a literal integer numeral
and a nonzero adjusted delta, `getAdjusted` returns a constant-folded
number equal to the operand's value plus the delta (negated when negation
is requested), and never a textual expression. -/
theorem getAdjusted_literal_fold (oneBased : Bool) (vtc : String) (d delta : Int)
    (neg : Bool) (ord : Option Nat) (q : ℚ)
    (hδ : delta = if oneBased then d - 1 else d)
    (hint : isIntNumber (resolveOperand oneBased vtc) = true)
    (hq : numeralValue (resolveOperand oneBased vtc) = some q)
    (_hd : ¬ delta = 0) :
    ∃ n : Int, getAdjusted oneBased vtc d neg ord = AdjResult.num n ∧
      (n : ℚ) = (if neg then -(q + (delta : ℚ)) else q + (delta : ℚ)) ∧
      (∀ str : String, ¬ getAdjusted oneBased vtc d neg ord = AdjResult.str str) := by
  obtain ⟨v, hp, hnl⟩ := intLit_parse (resolveOperand oneBased vtc).toList hint
  have hnum : isNumber (resolveOperand oneBased vtc) = true := by
    unfold isNumber
    rw [hnl]
    rfl
  have hqv : q = (v : ℚ) := by
    have : numeralValue (resolveOperand oneBased vtc) = some (v : ℚ) := hnl
    rw [hq] at this
    exact Option.some.inj this
  rw [getAdjusted_lit oneBased vtc d neg ord v hnum hp, ← hδ]
  refine ⟨if neg then -(v + delta) else v + delta, rfl, ?_, by simp⟩
  subst hqv
  cases neg <;> simp

/-- C2 (witness): the amended statement at the concrete operand `5` with
delta 1, no negation. -/
theorem getAdjusted_literal_fold_witness :
    ((1 : Int) = if false then (1 : Int) - 1 else 1) ∧
    isIntNumber (resolveOperand false "5") = true ∧
    numeralValue (resolveOperand false "5") = some (5 : ℚ) ∧
    (¬ (1 : Int) = 0) ∧
    (∃ n : Int, getAdjusted false "5" 1 false none = AdjResult.num n ∧
      (n : ℚ) = (if false then -((5 : ℚ) + ((1 : Int) : ℚ)) else (5 : ℚ) + ((1 : Int) : ℚ)) ∧
      (∀ str : String, ¬ getAdjusted false "5" 1 false none = AdjResult.str str)) :=
  ⟨by decide, by decide, by decide, by decide,
    getAdjusted_literal_fold false "5" 1 1 false none 5 (by decide) (by decide)
      (by decide) (by decide)⟩

/-- C2 (counterexample): `1.5` is accepted as a literal numeral by the
guard (`Blockly.isNumber` admits decimals), but with delta 1 the code
returns the number 2, which is not the operand's value plus the delta —
`1.5 + 1 = 2.5` — because `parseInt` truncates; the claim's "constant-folded
numeral equal to operand + delta" fails on decimal literal operands. -/
theorem getAdjusted_literal_cx :
    isNumber "1.5" = true ∧
    getAdjusted false "1.5" 1 false none = AdjResult.num 2 ∧
    numeralValue "1.5" = some ((3 : ℚ) / 2) ∧
    ¬ ((2 : Int) : ℚ) = (3 : ℚ) / 2 + 1 := by
  refine ⟨by decide, by decide, ?_, by norm_num⟩
  have h1 : numeralValue "1.5" =
      some ((digitsToNat ['1'] : ℚ) + (digitsToNat ['5'] : ℚ) / (10 : ℚ) ^ 1) := rfl
  have h2 : digitsToNat ['1'] = 1 := rfl
  have h3 : digitsToNat ['5'] = 5 := rfl
  rw [h1, h2, h3]
  norm_num

/-- C10: on any literal resolved operand, `getAdjusted` returns a number
(never a string): the operand is parsed by `parseInt` base 10 and the
adjusted delta is added (then the sum negated if requested). In particular
the decimal literal `1.5` with delta 1 yields the number 2 (truncation
toward zero), and the non-canonical numeral ` 07 ` with delta 0 yields the
normalized number 7. -/
theorem getAdjusted_literal_parseInt (oneBased : Bool) (vtc : String) (d : Int)
    (neg : Bool) (ord : Option Nat)
    (h : isNumber (resolveOperand oneBased vtc) = true) :
    (∃ m : Int, parseInt10 (resolveOperand oneBased vtc).toList = some m ∧
      getAdjusted oneBased vtc d neg ord =
        AdjResult.num (if neg then -(m + (if oneBased then d - 1 else d))
          else m + (if oneBased then d - 1 else d))) ∧
    getAdjusted false "1.5" 1 false none = AdjResult.num 2 ∧
    getAdjusted false " 07 " 0 false none = AdjResult.num 7 := by
  refine ⟨?_, by decide, by decide⟩
  obtain ⟨m, hm⟩ := isNumber_parseInt (resolveOperand oneBased vtc).toList h
  exact ⟨m, hm, getAdjusted_lit oneBased vtc d neg ord m h hm⟩

/-- C10 (witness): the statement at the concrete operand ` 07 ` with
delta 0. -/
theorem getAdjusted_literal_parseInt_witness :
    isNumber (resolveOperand false " 07 ") = true ∧
    ((∃ m : Int, parseInt10 (resolveOperand false " 07 ").toList = some m ∧
      getAdjusted false " 07 " 0 false none =
        AdjResult.num (if false then -(m + (if false then (0 : Int) - 1 else 0))
          else m + (if false then (0 : Int) - 1 else 0))) ∧
    getAdjusted false "1.5" 1 false none = AdjResult.num 2 ∧
    getAdjusted false " 07 " 0 false none = AdjResult.num 7) :=
  ⟨by decide, getAdjusted_literal_parseInt false " 07 " 0 false none (by decide)⟩

/-- C5 (amended): the portion of `finish`'s output that precedes the body
— the processed definitions region — never contains three or more
consecutive blank lines (no run of four newlines), and it is assembled
with every import-recognized Definition Table entry before every other
entry; the body is then appended verbatim, unconstrained. -/
theorem finish_region_spec (defs : List (String × String)) (code : String) :
    noThreeBlankLines (defsRegion defs) = true ∧
    finishOutput defs code = defsRegion defs ++ code ∧
    allDefsStr (defs.map Prod.snd) =
      String.intercalate "\n" ((defs.map Prod.snd).filter isImportDef) ++ "\n\n" ++
      String.intercalate "\n\n" ((defs.map Prod.snd).filter fun e => ! isImportDef e) := by
  refine ⟨postprocess_runs _, ?_, ?_⟩
  · rw [finishOutput_eq]
    unfold defsRegion
    rw [mk_append]
  · simp [allDefsStr, List.partition_eq_filter_filter]
    rfl

/-- C5 (counterexample): with an empty Definition Table and the body
`"\n"`, `finish` returns four consecutive newlines — three consecutive
blank lines — because the body is appended verbatim after the forced
`"\n\n\n"` and the blank-line collapse never inspects it; the claim's
"never contains three or more consecutive blank lines", quantified over
every body string, fails. -/
theorem finish_blank_lines_cx :
    finishOutput [] "\n" = "\n\n\n\n" ∧
    noThreeBlankLines (finishOutput [] "\n") = false := by
  decide

end CppGen
